import Mathlib

/-!
Verification of the TOPSIS implementation in `topsis_surya/core.py`.

Shallow embedding conventions:
* pandas DataFrames are a `DataFrame` structure of string cells (the CSV view);
* numpy float arrays are lists over `ℝ` (floats modelled as real numbers);
* `error_and_exit` (print `Error: <msg>` + `sys.exit(1)`) is the
  `Except.error msg` branch of an `Except String` result, so an aborted
  invocation produces no output value;
* `np.argsort` (called with the default `kind='quicksort'`, an introsort that
  numpy documents as not stable) guarantees only the contract `IsValidArgsort`
  — a sorting permutation of the indices, tie order unspecified; the
  executable model `argsort` is one deterministic refinement of that
  contract, and properties that depend on the order of tied indices are
  judged against the contract, not the refinement.
-/

deriving instance DecidableEq for Except

namespace Topsis

/-- Value of a decimal digit character. -/
def digitVal (c : Char) : ℕ := c.toNat - 48

/-- Reads a digit string as a natural number (most significant digit first). -/
def natOfDigits (cs : List Char) : ℕ := cs.foldl (fun a c => 10 * a + digitVal c) 0

/-- Model of Python `float(token)` on an already-stripped token, restricted to
finite decimal literals: an optional sign followed by `digits`, `digits.digits`,
`digits.` or `.digits`.  Returns `none` exactly when Python raises `ValueError`
(the modelled fragment has no exponents, `inf`, `nan` or underscores; the same
model serves `pd.to_numeric` on CSV cells). -/
def pythonFloat? (s : String) : Option ℚ :=
  let cs := s.toList
  let neg : Bool := match cs with
    | '-' :: _ => true
    | _ => false
  let body := match cs with
    | '-' :: rest => rest
    | '+' :: rest => rest
    | _ => cs
  let intPart := body.takeWhile (fun c => c ≠ '.')
  let rest := body.dropWhile (fun c => c ≠ '.')
  let fracPart := rest.drop 1
  if intPart.all Char.isDigit && fracPart.all Char.isDigit &&
      (!intPart.isEmpty || !fracPart.isEmpty) then
    let num : ℤ := natOfDigits (intPart ++ fracPart)
    some (mkRat (if neg then -num else num) (10 ^ fracPart.length))
  else none

/-- Model of Python `arg.split(",")` on the character list: split at every
comma, keeping empty fields (so `"+,,-"` splits into three fields). -/
def splitOnComma : List Char → List (List Char)
  | [] => [[]]
  | c :: cs =>
    if c = ',' then [] :: splitOnComma cs
    else
      match splitOnComma cs with
      | [] => [[c]]
      | t :: ts => (c :: t) :: ts

/-- Model of Python `token.strip()`: drop whitespace from both ends. -/
def stripChars (cs : List Char) : List Char :=
  ((cs.dropWhile Char.isWhitespace).reverse.dropWhile Char.isWhitespace).reverse

/-- The token pipeline shared by weights and impacts in `parse_and_validate`:
`arg.split(",")`, strip whitespace, and keep only tokens that are non-empty
after stripping (Python's `if w.strip()` truthiness filter). -/
def tokens (s : String) : List String :=
  (((splitOnComma s.data).map stripChars).map String.mk).filter (fun t => t ≠ "")

/-- Embedding of `parse_and_validate(weights_arg, impacts_arg, ncols)`:
parse the weight tokens as floats (any failure aborts), clean the impact
tokens, require every impact to be `"+"` or `"-"`, then require both counts to
equal `ncols`; on success return the parsed weights and the impact tokens. -/
def parse_and_validate (weights_arg impacts_arg : String) (ncols : ℕ) :
    Except String (List ℚ × List String) :=
  match (tokens weights_arg).mapM pythonFloat? with
  | none => Except.error "Weights must be numeric and separated by commas"
  | some weights =>
    let impacts := tokens impacts_arg
    if ¬ (∀ imp ∈ impacts, imp = "+" ∨ imp = "-") then
      Except.error "Impacts must be plus or minus and separated by commas"
    else if weights.length ≠ ncols ∨ impacts.length ≠ ncols then
      Except.error "Weights and impacts count must equal criteria count"
    else Except.ok (weights, impacts)

/-- A pandas DataFrame as read from CSV: a header row and data rows of raw
string cells. -/
structure DataFrame where
  header : List String
  rows : List (List String)
  deriving DecidableEq

/-- Embedding of the validation part of `read_and_validate_csv` (the file
read itself is an I/O boundary): require at least 3 columns, and require every
cell outside the first column to coerce to a number
(`df.iloc[:, 1:].apply(pd.to_numeric, errors="coerce").notna().all().all()`). -/
def read_and_validate (df : DataFrame) : Except String DataFrame :=
  if df.header.length < 3 then
    Except.error "Input file must have at least 3 columns"
  else if ¬ (∀ row ∈ df.rows, ∀ cell ∈ row.drop 1, (pythonFloat? cell).isSome) then
    Except.error "Columns 2 onwards must contain only numeric values"
  else Except.ok df

/-- Embedding of `df.iloc[:, 1:].to_numpy(dtype=float)`: drop the identifier
column of every row and read the remaining cells as numbers, keeping row
order. -/
def criteriaMatrix (df : DataFrame) : List (List ℚ) :=
  df.rows.map (fun row => (row.drop 1).map (fun cell => (pythonFloat? cell).getD 0))

/-! ### The TOPSIS engine (`topsis_calculation`) -/

/-- Number of criteria columns of the data matrix (its row length). -/
def numCriteria (data : List (List ℝ)) : ℕ := (data.headD []).length

/-- Column `j` of a matrix (numpy `m[:, j]`). -/
def colOf (m : List (List ℝ)) (j : ℕ) : List ℝ := m.map (fun row => row.getD j 0)

/-- `np.linalg.norm(data, axis=0)` at column `j`: the Euclidean norm of
column `j`. -/
noncomputable def colNorm (data : List (List ℝ)) (j : ℕ) : ℝ :=
  Real.sqrt (((colOf data j).map (fun x => x ^ 2)).sum)

/-- One row of `(data / norms) * weights`. -/
noncomputable def weightedRow (data : List (List ℝ)) (weights : List ℝ) (C : ℕ)
    (row : List ℝ) : List ℝ :=
  (List.range C).map (fun j => row.getD j 0 / colNorm data j * weights.getD j 0)

/-- `weighted = (data / norms) * weights`: normalize every column by its norm,
then scale by the weights (numpy broadcasting). -/
noncomputable def weightedMatrix (data : List (List ℝ)) (weights : List ℝ) (C : ℕ) :
    List (List ℝ) :=
  data.map (weightedRow data weights C)

/-- numpy `max` of a (nonempty) list; `0` as junk value on `[]`. -/
noncomputable def lmax : List ℝ → ℝ
  | [] => 0
  | x :: xs => xs.foldl max x

/-- numpy `min` of a (nonempty) list; `0` as junk value on `[]`. -/
noncomputable def lmin : List ℝ → ℝ
  | [] => 0
  | x :: xs => xs.foldl min x

/-- `ideal_best = np.where(impacts == "+", weighted.max(axis=0),
weighted.min(axis=0))`. -/
noncomputable def ideal_best (data : List (List ℝ)) (weights : List ℝ)
    (impacts : List String) (C : ℕ) : List ℝ :=
  (List.range C).map (fun j =>
    if impacts.getD j "" = "+" then lmax (colOf (weightedMatrix data weights C) j)
    else lmin (colOf (weightedMatrix data weights C) j))

/-- `ideal_worst = np.where(impacts == "+", weighted.min(axis=0),
weighted.max(axis=0))`. -/
noncomputable def ideal_worst (data : List (List ℝ)) (weights : List ℝ)
    (impacts : List String) (C : ℕ) : List ℝ :=
  (List.range C).map (fun j =>
    if impacts.getD j "" = "+" then lmin (colOf (weightedMatrix data weights C) j)
    else lmax (colOf (weightedMatrix data weights C) j))

/-- Euclidean distance of a row to an ideal point over the `C` criteria
(one entry of `np.linalg.norm(weighted - ideal, axis=1)`). -/
noncomputable def rowDist (row ideal : List ℝ) (C : ℕ) : ℝ :=
  Real.sqrt (((List.range C).map (fun j => (row.getD j 0 - ideal.getD j 0) ^ 2)).sum)

/-- `s_best[i]`: distance of weighted row `i` to the ideal best point. -/
noncomputable def s_best (data : List (List ℝ)) (weights : List ℝ)
    (impacts : List String) (i : ℕ) : ℝ :=
  rowDist ((weightedMatrix data weights (numCriteria data)).getD i [])
    (ideal_best data weights impacts (numCriteria data)) (numCriteria data)

/-- `s_worst[i]`: distance of weighted row `i` to the ideal worst point. -/
noncomputable def s_worst (data : List (List ℝ)) (weights : List ℝ)
    (impacts : List String) (i : ℕ) : ℝ :=
  rowDist ((weightedMatrix data weights (numCriteria data)).getD i [])
    (ideal_worst data weights impacts (numCriteria data)) (numCriteria data)

/-- `scores = np.divide(s_worst, s_best + s_worst, out=np.zeros_like(s_worst),
where=(s_best + s_worst) != 0)`: one closeness score per row, `0` where the
denominator is zero. -/
noncomputable def scoresOf (data : List (List ℝ)) (weights : List ℝ)
    (impacts : List String) : List ℝ :=
  (weightedMatrix data weights (numCriteria data)).map (fun row =>
    let sb := rowDist row (ideal_best data weights impacts (numCriteria data))
      (numCriteria data)
    let sw := rowDist row (ideal_worst data weights impacts (numCriteria data))
      (numCriteria data)
    if sb + sw ≠ 0 then sw / (sb + sw) else 0)

/-- The index comparison of the `np.argsort` model: order two indices by their
values in `l`, ties by the index itself (stability). -/
def argLe {α : Type} [LinearOrder α] [Inhabited α] (l : List α) (i j : ℕ) : Bool :=
  decide (l.getD i default < l.getD j default ∨
    (l.getD i default = l.getD j default ∧ i ≤ j))

/-- Deterministic executable model of `np.argsort`: the indices
`0..l.length-1` ordered by their values in `l`, ties broken by the original
index.  This is ONE refinement of the contract `IsValidArgsort` below: the
source calls `np.argsort` with the default `kind='quicksort'` (introsort),
which numpy documents as not stable, so the real tie order is unspecified —
properties that depend on the order of tied indices must be judged against
`IsValidArgsort`, not against this refinement.  (The second argsort of the
rank computation runs on a duplicate-free index list, where every
contract-conforming sort agrees with this one.) -/
def argsort {α : Type} [LinearOrder α] [Inhabited α] (l : List α) : List ℕ :=
  (List.range l.length).mergeSort (argLe l)

/-- The contract `np.argsort` guarantees for every sort kind: the result is
some permutation of `0..l.length-1` along which the values are nondecreasing.
For the default `kind='quicksort'` nothing more is guaranteed — the relative
order of indices with equal values is unspecified (only `kind='stable'`
fixes it). -/
def IsValidArgsort {α : Type} [LinearOrder α] [Inhabited α]
    (l : List α) (a : List ℕ) : Prop :=
  a.Perm (List.range l.length) ∧
  a.Pairwise (fun i j => l.getD i default ≤ l.getD j default)

/-- `ranks = np.argsort(-scores).argsort() + 1`. -/
noncomputable def ranksOf (scores : List ℝ) : List ℕ :=
  (argsort (argsort (scores.map (fun s => -s)))).map (fun r => r + 1)

/-- Embedding of `topsis_calculation(data, weights, impacts)`: abort when some
column norm is zero (`np.any(norms == 0)`), otherwise normalize, weight, and
return the scores and ranks. -/
noncomputable def topsis_calculation (data : List (List ℝ)) (weights : List ℝ)
    (impacts : List String) : Except String (List ℝ × List ℕ) :=
  if ∃ j ∈ List.range (numCriteria data), colNorm data j = 0 then
    Except.error "Column with all zeros detected"
  else
    Except.ok (scoresOf data weights impacts, ranksOf (scoresOf data weights impacts))

/-- The output table: the input DataFrame with the two appended columns
`"Topsis Score"` and `"Rank"`; each row keeps its original cells and gains a
score and a rank. -/
structure OutputTable where
  header : List String
  rows : List (List String × ℝ × ℕ)

/-- Embedding of `run_topsis`: validate the CSV table, parse the parameters
against `ncols = columns - 1`, run the TOPSIS calculation on the criteria
matrix, and append the `Topsis Score` and `Rank` columns (the `df.to_csv`
write is the I/O boundary); any failure aborts before the output is built. -/
noncomputable def run_topsis (df : DataFrame) (weights_arg impacts_arg : String) :
    Except String OutputTable := do
  let df ← read_and_validate df
  let ncols := df.header.length - 1
  let (weights, impacts) ← parse_and_validate weights_arg impacts_arg ncols
  let data := (criteriaMatrix df).map (fun row => row.map (Rat.cast : ℚ → ℝ))
  let (scores, ranks) ← topsis_calculation data (weights.map (Rat.cast : ℚ → ℝ)) impacts
  return ⟨df.header ++ ["Topsis Score", "Rank"], df.rows.zip (scores.zip ranks)⟩

/-! ### Helper lemmas -/

theorem getD_range_map {α : Type} (f : ℕ → α) (C j : ℕ) (d : α) (hj : j < C) :
    ((List.range C).map f).getD j d = f j := by
  rw [List.getD_eq_getElem _ _ (by simpa using hj)]
  simp

theorem getD_map {α β : Type} (f : α → β) (l : List α) (j : ℕ) (d : β) (d' : α)
    (hj : j < l.length) :
    (l.map f).getD j d = f (l.getD j d') := by
  rw [List.getD_eq_getElem _ _ (by simpa using hj), List.getD_eq_getElem _ _ hj]
  simp

/-! ### Claims about the validators -/

/-- C5: `parse_and_validate` fails if some weight token does not parse as a
number, fails if some impact token is not exactly `"+"` or `"-"`, fails if the
parsed weight or impact count differs from the criteria count, and otherwise
returns the parsed weight vector and the impact tokens. -/
theorem parse_and_validate_spec (w i : String) (n : ℕ) :
    (∀ qs imps, parse_and_validate w i n = Except.ok (qs, imps) →
      (tokens w).mapM pythonFloat? = some qs ∧ imps = tokens i ∧
      qs.length = n ∧ imps.length = n ∧ ∀ t ∈ imps, t = "+" ∨ t = "-") ∧
    ((∃ r, parse_and_validate w i n = Except.ok r) ↔
      ∃ qs, (tokens w).mapM pythonFloat? = some qs ∧
        (∀ t ∈ tokens i, t = "+" ∨ t = "-") ∧
        qs.length = n ∧ (tokens i).length = n) := by
  have main : ∀ qs imps, parse_and_validate w i n = Except.ok (qs, imps) →
      (tokens w).mapM pythonFloat? = some qs ∧ imps = tokens i ∧
      qs.length = n ∧ imps.length = n ∧ ∀ t ∈ imps, t = "+" ∨ t = "-" := by
    intro qs imps h
    rcases hw : (tokens w).mapM pythonFloat? with _ | ws
    · simp only [parse_and_validate, hw] at h
      exact Except.noConfusion h
    · simp only [parse_and_validate, hw] at h
      split_ifs at h with h1 h2
      simp only [Except.ok.injEq, Prod.mk.injEq] at h
      obtain ⟨rfl, rfl⟩ := h
      push_neg at h2
      exact ⟨rfl, rfl, h2.1, h2.2, h1⟩
  refine ⟨main, ?_, ?_⟩
  · rintro ⟨⟨qs, imps⟩, h⟩
    obtain ⟨h1, h2, h3, h4, h5⟩ := main qs imps h
    exact ⟨qs, h1, h2 ▸ h5, h3, h2 ▸ h4⟩
  · rintro ⟨qs, hqs, himp, hlen, hilen⟩
    refine ⟨(qs, tokens i), ?_⟩
    simp only [parse_and_validate, hqs]
    rw [if_neg (by push_neg; exact himp), if_neg (by push_neg; exact ⟨hlen, hilen⟩)]

/-- Claim C5 witness: at weights `"1,2"`, impacts `"+,-"`, two criteria,
parsing succeeds and returns the parsed values. -/
theorem parse_and_validate_spec_witness :
    (tokens "1,2").mapM pythonFloat? = some [1, 2] ∧
    (["+", "-"] : List String) = tokens "+,-" ∧
    ([(1 : ℚ), 2]).length = 2 ∧ (["+", "-"] : List String).length = 2 ∧
    ∀ t ∈ (["+", "-"] : List String), t = "+" ∨ t = "-" :=
  (parse_and_validate_spec "1,2" "+,-" 2).1 [1, 2] ["+", "-"] (by decide)

/-- Claim C9: empty impact tokens produced by leading, trailing or consecutive
commas are silently dropped before symbol and count validation, so the impacts
string `"+,,-"` against two criteria validates successfully instead of being
rejected as an invalid impact symbol. -/
theorem impacts_empty_tokens_dropped :
    tokens "+,,-" = ["+", "-"] ∧
    parse_and_validate "1,1" "+,,-" 2 = Except.ok ([1, 1], ["+", "-"]) :=
  ⟨by decide, by decide⟩

/-- Claim C10: parameter validation performs no positivity check on weights:
whenever the weight tokens all parse and the counts match, validation succeeds
and returns the parsed values unchanged — zero or negative weights included —
and the weighting step multiplies column `j` by exactly the parsed
`weights[j]`. -/
theorem parse_and_validate_no_positivity (w i : String) (n : ℕ) (qs : List ℚ)
    (hw : (tokens w).mapM pythonFloat? = some qs) (hn : qs.length = n)
    (himp : ∀ t ∈ tokens i, t = "+" ∨ t = "-") (hin : (tokens i).length = n) :
    parse_and_validate w i n = Except.ok (qs, tokens i) ∧
    ∀ (data : List (List ℝ)) (C j : ℕ) (row : List ℝ), j < C →
      (weightedRow data (qs.map (fun q => (q : ℝ))) C row).getD j 0 =
        row.getD j 0 / colNorm data j * (qs.map (fun q => (q : ℝ))).getD j 0 := by
  constructor
  · simp only [parse_and_validate, hw]
    rw [if_neg (by push_neg; exact himp), if_neg (by push_neg; exact ⟨hn, hin⟩)]
  · intro data C j row hj
    rw [weightedRow, getD_range_map _ _ _ _ hj]

/-- Claim C10 witness: the weights string `"-1,0"` (a negative and a zero
weight) validates against two criteria, and the weighting step uses `-1`
unchanged. -/
theorem parse_and_validate_no_positivity_witness :
    parse_and_validate "-1,0" "+,-" 2 = Except.ok ([-1, 0], tokens "+,-") ∧
    (weightedRow [[2]] (([(-1 : ℚ), 0]).map (fun q => (q : ℝ))) 2 [2]).getD 0 0 =
      (2 : ℝ) / colNorm [[2]] 0 * (([(-1 : ℚ), 0]).map (fun q => (q : ℝ))).getD 0 0 := by
  have h := parse_and_validate_no_positivity "-1,0" "+,-" 2 [-1, 0]
    (by decide) (by decide) (by decide) (by decide)
  refine ⟨h.1, ?_⟩
  have h2 := h.2 [[2]] 2 0 [2] (by norm_num)
  simpa using h2

/-- Claim C6: dataset validation fails iff the table has fewer than 3 total
columns or some cell outside the first (identifier) column is non-numeric (the
check covers every cell of every criteria column); on success the table passes
through unchanged, and the criteria matrix is the table with the identifier
column dropped, rows in exactly the source order. -/
theorem read_and_validate_spec (df : DataFrame) :
    ((∃ r, read_and_validate df = Except.ok r) ↔
      (3 ≤ df.header.length ∧
        ∀ row ∈ df.rows, ∀ cell ∈ row.drop 1, (pythonFloat? cell).isSome)) ∧
    (∀ r, read_and_validate df = Except.ok r → r = df) ∧
    (criteriaMatrix df).length = df.rows.length ∧
    ∀ i j, i < df.rows.length → j + 1 < (df.rows.getD i []).length →
      ((criteriaMatrix df).getD i []).getD j 0 =
        (pythonFloat? ((df.rows.getD i []).getD (j + 1) "")).getD 0 := by
  refine ⟨?_, ?_, by simp [criteriaMatrix], ?_⟩
  · constructor
    · rintro ⟨r, h⟩
      simp only [read_and_validate] at h
      split_ifs at h with h1 h2
      exact ⟨by omega, h2⟩
    · rintro ⟨h1, h2⟩
      refine ⟨df, ?_⟩
      simp only [read_and_validate]
      rw [if_neg (by omega), if_neg (not_not.mpr h2)]
  · intro r h
    simp only [read_and_validate] at h
    split_ifs at h
    exact (Except.ok.injEq _ _ ▸ h).symm
  · intro i j hi hj
    have hlen : j < ((df.rows.getD i []).drop 1).length := by
      simp only [List.length_drop]; omega
    rw [criteriaMatrix, getD_map _ _ _ _ [] hi, getD_map _ _ _ _ "" hlen]
    have hcell : (List.drop 1 (df.rows.getD i [])).getD j "" =
        (df.rows.getD i []).getD (j + 1) "" := by
      rw [List.getD_eq_getElem _ _ hlen]
      conv_rhs => rw [List.getD_eq_getElem _ _ hj]
      simp [List.getElem_drop, Nat.add_comm]
    rw [hcell]

/-- Claim C6 witness: a 3-column table with numeric criteria cells validates
and its criteria matrix entry is the parsed cell. -/
theorem read_and_validate_spec_witness :
    ((∃ r, read_and_validate ⟨["n", "a", "b"], [["x", "1", "2"]]⟩ = Except.ok r) ↔
      (3 ≤ (["n", "a", "b"] : List String).length ∧
        ∀ row ∈ [["x", "1", "2"]], ∀ cell ∈ row.drop 1, (pythonFloat? cell).isSome)) ∧
    ((criteriaMatrix ⟨["n", "a", "b"], [["x", "1", "2"]]⟩).getD 0 []).getD 1 0 =
      (pythonFloat? "2").getD 0 := by
  have h := read_and_validate_spec ⟨["n", "a", "b"], [["x", "1", "2"]]⟩
  exact ⟨h.1, h.2.2.2 0 1 (by decide) (by decide)⟩

/-- Claim C8: the pipeline is deterministic — two runs on identical inputs
(same table, weights string, impacts string) return identical results, output
rows, scores and ranks included; the embedding is a pure function of its
inputs. -/
theorem run_topsis_deterministic (df₁ df₂ : DataFrame) (w₁ w₂ i₁ i₂ : String)
    (hdf : df₁ = df₂) (hw : w₁ = w₂) (hi : i₁ = i₂) :
    run_topsis df₁ w₁ i₁ = run_topsis df₂ w₂ i₂ := by
  subst hdf hw hi
  rfl

/-- Claim C8 witness: two runs on one concrete input agree. -/
theorem run_topsis_deterministic_witness :
    run_topsis ⟨["n", "a", "b"], [["x", "1", "2"]]⟩ "1,1" "+,+" =
      run_topsis ⟨["n", "a", "b"], [["x", "1", "2"]]⟩ "1,1" "+,+" :=
  run_topsis_deterministic _ _ _ _ _ _ rfl rfl rfl


section Argsort

variable {α : Type} [LinearOrder α] [Inhabited α]

theorem argLe_iff (l : List α) (i j : ℕ) :
    argLe l i j = true ↔
      (l.getD i default < l.getD j default ∨
        (l.getD i default = l.getD j default ∧ i ≤ j)) := by
  simp [argLe]

theorem argsort_perm (l : List α) : (argsort l).Perm (List.range l.length) :=
  List.mergeSort_perm _ _

theorem argsort_length (l : List α) : (argsort l).length = l.length := by
  rw [(argsort_perm l).length_eq, List.length_range]

theorem argsort_mem {l : List α} {x : ℕ} (h : x ∈ argsort l) : x < l.length := by
  rw [← List.mem_range]
  exact (argsort_perm l).mem_iff.mp h

theorem argsort_nodup (l : List α) : (argsort l).Nodup :=
  (argsort_perm l).nodup_iff.mpr (List.nodup_range _)

theorem argsort_pairwise (l : List α) :
    (argsort l).Pairwise (fun i j => argLe l i j = true) := by
  apply List.sorted_mergeSort
  · intro a b c hab hbc
    rw [argLe_iff] at hab hbc ⊢
    rcases hab with h1 | ⟨h1, h1'⟩ <;> rcases hbc with h2 | ⟨h2, h2'⟩
    · exact Or.inl (h1.trans h2)
    · exact Or.inl (h2 ▸ h1)
    · exact Or.inl (h1 ▸ h2)
    · exact Or.inr ⟨h1.trans h2, h1'.trans h2'⟩
  · intro a b
    rw [Bool.or_eq_true, argLe_iff, argLe_iff]
    rcases lt_trichotomy (l.getD a default) (l.getD b default) with h | h | h
    · exact Or.inl (Or.inl h)
    · rcases le_total a b with h' | h'
      · exact Or.inl (Or.inr ⟨h, h'⟩)
      · exact Or.inr (Or.inr ⟨h.symm, h'⟩)
    · exact Or.inr (Or.inl h)

omit [LinearOrder α] [Inhabited α] in
/-- Recovering a list from positional reads. -/
theorem range_map_getD (l : List α) (d : α) :
    (List.range l.length).map (fun i => l.getD i d) = l := by
  apply List.ext_getElem (by simp)
  intro n h1 h2
  simp only [List.getElem_map, List.getElem_range]
  exact List.getD_eq_getElem l d h2

/-- `argsort` of a permutation of `range n` is its inverse permutation:
reading the sorted output at position `p` returns the position of value `p`. -/
theorem argsort_argsort_getD (a : List ℕ) (h : a.Perm (List.range a.length))
    (p : ℕ) (hp : p < a.length) :
    a.getD ((argsort a).getD p 0) 0 = p := by
  have hnodupa : a.Nodup := h.nodup_iff.mpr (List.nodup_range _)
  have hlen : (argsort a).length = a.length := argsort_length a
  have hpair : (argsort a).Pairwise (fun i j => a.getD i 0 < a.getD j 0) := by
    refine ((argsort_pairwise a).and (argsort_nodup a)).imp_of_mem ?_
    intro i j hi hj hij
    obtain ⟨hle, hne⟩ := hij
    rcases (argLe_iff a i j).mp hle with hlt | ⟨heq, _⟩
    · exact hlt
    · exfalso
      apply hne
      have hi' : i < a.length := argsort_mem hi
      have hj' : j < a.length := argsort_mem hj
      rw [List.getD_eq_getElem _ _ hi', List.getD_eq_getElem _ _ hj'] at heq
      exact hnodupa.getElem_inj_iff.mp heq
  have hceq : (argsort a).map (fun q => a.getD q 0) = List.range a.length := by
    haveI : IsAntisymm ℕ (· < ·) := ⟨fun _ _ h1 h2 => absurd h2 (lt_asymm h1)⟩
    apply List.eq_of_perm_of_sorted ?_ ?_ (List.sorted_lt_range _)
    · have h1 : ((argsort a).map (fun q => a.getD q 0)).Perm
          ((List.range a.length).map (fun q => a.getD q 0)) := (argsort_perm a).map _
      rw [range_map_getD a 0] at h1
      exact h1.trans h
    · exact List.pairwise_map.mpr hpair
  have hfin := congrArg (fun t => t.getD p 0) hceq
  simp only at hfin
  have hr : (List.range a.length).getD p 0 = p := by
    rw [List.getD_eq_getElem _ _ (by simpa using hp)]
    simp
  rw [hr, getD_map _ _ _ _ 0 (by rw [hlen]; exact hp)] at hfin
  exact hfin

end Argsort


theorem real_default : (default : ℝ) = 0 := rfl

theorem ranksOf_length (scores : List ℝ) : (ranksOf scores).length = scores.length := by
  simp [ranksOf, argsort_length]

theorem ranksOf_perm (scores : List ℝ) :
    (ranksOf scores).Perm (List.range' 1 scores.length) := by
  have h1 : (argsort (argsort (scores.map fun s => -s))).Perm
      (List.range scores.length) := by
    have h := argsort_perm (argsort (scores.map fun s => -s))
    rwa [argsort_length, List.length_map] at h
  have h2 := h1.map (fun r => r + 1)
  have h3 : (List.range scores.length).map (fun r => r + 1) =
      List.range' 1 scores.length := by
    rw [List.range'_eq_map_range]
    exact List.map_congr_left (fun x _ => Nat.add_comm x 1)
  rw [ranksOf]
  exact h3 ▸ h2

theorem foldl_max_mem (x : ℝ) (xs : List ℝ) : xs.foldl max x ∈ x :: xs := by
  induction xs generalizing x with
  | nil => simp
  | cons a xs ih =>
    simp only [List.foldl_cons]
    rcases List.mem_cons.mp (ih (max x a)) with h | h
    · rw [h]
      rcases max_choice x a with hm | hm <;> rw [hm]
      · exact List.mem_cons_self _ _
      · exact List.mem_cons_of_mem _ (List.mem_cons_self _ _)
    · exact List.mem_cons_of_mem _ (List.mem_cons_of_mem _ h)

theorem le_foldl_max (x : ℝ) (xs : List ℝ) : ∀ y ∈ x :: xs, y ≤ xs.foldl max x := by
  induction xs generalizing x with
  | nil =>
    intro y hy
    simp only [List.mem_singleton] at hy
    simp [hy]
  | cons a xs ih =>
    intro y hy
    simp only [List.foldl_cons]
    rcases List.mem_cons.mp hy with rfl | hy' <;>
      [skip; rcases List.mem_cons.mp hy' with rfl | hy'']
    · exact le_trans (le_max_left y a) (ih (max y a) _ (List.mem_cons_self _ _))
    · exact le_trans (le_max_right x y) (ih (max x y) _ (List.mem_cons_self _ _))
    · exact ih (max x a) y (List.mem_cons_of_mem _ hy'')

theorem foldl_min_mem (x : ℝ) (xs : List ℝ) : xs.foldl min x ∈ x :: xs := by
  induction xs generalizing x with
  | nil => simp
  | cons a xs ih =>
    simp only [List.foldl_cons]
    rcases List.mem_cons.mp (ih (min x a)) with h | h
    · rw [h]
      rcases min_choice x a with hm | hm <;> rw [hm]
      · exact List.mem_cons_self _ _
      · exact List.mem_cons_of_mem _ (List.mem_cons_self _ _)
    · exact List.mem_cons_of_mem _ (List.mem_cons_of_mem _ h)

theorem foldl_min_le (x : ℝ) (xs : List ℝ) : ∀ y ∈ x :: xs, xs.foldl min x ≤ y := by
  induction xs generalizing x with
  | nil =>
    intro y hy
    simp only [List.mem_singleton] at hy
    simp [hy]
  | cons a xs ih =>
    intro y hy
    simp only [List.foldl_cons]
    rcases List.mem_cons.mp hy with rfl | hy' <;>
      [skip; rcases List.mem_cons.mp hy' with rfl | hy'']
    · exact le_trans (ih (min y a) _ (List.mem_cons_self _ _)) (min_le_left y a)
    · exact le_trans (ih (min x y) _ (List.mem_cons_self _ _)) (min_le_right x y)
    · exact ih (min x a) y (List.mem_cons_of_mem _ hy'')

theorem lmax_mem {l : List ℝ} (h : l ≠ []) : lmax l ∈ l := by
  cases l with
  | nil => exact absurd rfl h
  | cons x xs => exact foldl_max_mem x xs

theorem le_lmax {l : List ℝ} {y : ℝ} (hy : y ∈ l) : y ≤ lmax l := by
  cases l with
  | nil => cases hy
  | cons x xs => exact le_foldl_max x xs y hy

theorem lmin_mem {l : List ℝ} (h : l ≠ []) : lmin l ∈ l := by
  cases l with
  | nil => exact absurd rfl h
  | cons x xs => exact foldl_min_mem x xs

theorem lmin_le {l : List ℝ} {y : ℝ} (hy : y ∈ l) : lmin l ≤ y := by
  cases l with
  | nil => cases hy
  | cons x xs => exact foldl_min_le x xs y hy


/-- Claim C3: `topsis_calculation` fails (with the degenerate-column error,
before any normalization) if and only if some criterion column has Euclidean
norm zero; on success every column norm is nonzero, so no division by a zero
norm is ever performed. -/
theorem topsis_degenerate_column (data : List (List ℝ)) (weights : List ℝ)
    (impacts : List String) :
    ((topsis_calculation data weights impacts =
        Except.error "Column with all zeros detected") ↔
      ∃ j < numCriteria data, colNorm data j = 0) ∧
    (∀ r, topsis_calculation data weights impacts = Except.ok r →
      ∀ j < numCriteria data, colNorm data j ≠ 0) := by
  by_cases hc : ∃ j ∈ List.range (numCriteria data), colNorm data j = 0
  · have herr : topsis_calculation data weights impacts =
        Except.error "Column with all zeros detected" := by
      rw [topsis_calculation, if_pos hc]
    refine ⟨⟨fun _ => ?_, fun _ => herr⟩, fun r h => ?_⟩
    · simpa [List.mem_range] using hc
    · rw [herr] at h
      exact Except.noConfusion h
  · have hok : topsis_calculation data weights impacts =
        Except.ok (scoresOf data weights impacts,
          ranksOf (scoresOf data weights impacts)) := by
      rw [topsis_calculation, if_neg hc]
    refine ⟨⟨fun h => ?_, fun hj => ?_⟩, fun r h j hjC h0 => ?_⟩
    · rw [hok] at h
      exact Except.noConfusion h
    · exact absurd (by simpa [List.mem_range] using hj) hc
    · exact hc ⟨j, List.mem_range.mpr hjC, h0⟩

/-- topsis success determines the score list. -/
theorem topsis_ok_scores (data : List (List ℝ)) (weights : List ℝ)
    (impacts : List String) (scores : List ℝ) (ranks : List ℕ)
    (h : topsis_calculation data weights impacts = Except.ok (scores, ranks)) :
    scores = scoresOf data weights impacts ∧
    ranks = ranksOf (scoresOf data weights impacts) := by
  by_cases hc : ∃ j ∈ List.range (numCriteria data), colNorm data j = 0
  · rw [topsis_calculation, if_pos hc] at h
    exact Except.noConfusion h
  · rw [topsis_calculation, if_neg hc] at h
    simp only [Except.ok.injEq, Prod.mk.injEq] at h
    exact ⟨h.1.symm, h.2.symm⟩

theorem scoresOf_length (data : List (List ℝ)) (weights : List ℝ)
    (impacts : List String) : (scoresOf data weights impacts).length = data.length := by
  simp [scoresOf, weightedMatrix]

theorem scoresOf_getD (data : List (List ℝ)) (weights : List ℝ)
    (impacts : List String) (i : ℕ) (hi : i < data.length) :
    (scoresOf data weights impacts).getD i 0 =
      (if s_best data weights impacts i + s_worst data weights impacts i ≠ 0
        then s_worst data weights impacts i /
          (s_best data weights impacts i + s_worst data weights impacts i)
        else 0) := by
  have hW : (weightedMatrix data weights (numCriteria data)).length = data.length := by
    simp [weightedMatrix]
  rw [scoresOf, getD_map _ _ _ _ [] (by rw [hW]; exact hi)]
  rfl

/-- Claim C2: each returned score equals
`s_worst[i] / (s_best[i] + s_worst[i])` when the denominator is nonzero and
`0` when the denominator is zero (a defined fallback, not an error), and
whenever the denominator is nonzero the score lies in `[0, 1]`. -/
theorem score_formula_and_range (data : List (List ℝ)) (weights : List ℝ)
    (impacts : List String) (scores : List ℝ) (ranks : List ℕ)
    (h : topsis_calculation data weights impacts = Except.ok (scores, ranks))
    (i : ℕ) (hi : i < data.length) :
    scores.getD i 0 =
      (if s_best data weights impacts i + s_worst data weights impacts i ≠ 0
        then s_worst data weights impacts i /
          (s_best data weights impacts i + s_worst data weights impacts i)
        else 0) ∧
    (s_best data weights impacts i + s_worst data weights impacts i ≠ 0 →
      0 ≤ scores.getD i 0 ∧ scores.getD i 0 ≤ 1) := by
  obtain ⟨rfl, -⟩ := topsis_ok_scores data weights impacts scores ranks h
  have hgd := scoresOf_getD data weights impacts i hi
  refine ⟨hgd, fun hne => ?_⟩
  have hb : 0 ≤ s_best data weights impacts i := by
    rw [s_best, rowDist]
    exact Real.sqrt_nonneg _
  have hw : 0 ≤ s_worst data weights impacts i := by
    rw [s_worst, rowDist]
    exact Real.sqrt_nonneg _
  have hpos : 0 < s_best data weights impacts i + s_worst data weights impacts i :=
    lt_of_le_of_ne (add_nonneg hb hw) (Ne.symm hne)
  rw [hgd, if_pos hne]
  constructor
  · exact div_nonneg hw (le_of_lt hpos)
  · rw [div_le_one hpos]
    linarith

/-- Claim C4: every weighted entry satisfies
`weighted[i][j] = (matrix[i][j] / norm_j) * weights[j]`, and for each
criterion the ideal best point is the maximum of the weighted column and the
ideal worst its minimum when the impact is `"+"` (BENEFIT), with the roles
swapped when the impact is `"-"` (COST). -/
theorem weighted_and_ideal_spec (data : List (List ℝ)) (weights : List ℝ)
    (impacts : List String) (C i j : ℕ) (hi : i < data.length) (hj : j < C) :
    (((weightedMatrix data weights C).getD i []).getD j 0 =
      (data.getD i []).getD j 0 / colNorm data j * weights.getD j 0) ∧
    (impacts.getD j "" = "+" →
      (∀ x ∈ colOf (weightedMatrix data weights C) j,
        (ideal_worst data weights impacts C).getD j 0 ≤ x ∧
          x ≤ (ideal_best data weights impacts C).getD j 0) ∧
      (ideal_best data weights impacts C).getD j 0 ∈
        colOf (weightedMatrix data weights C) j ∧
      (ideal_worst data weights impacts C).getD j 0 ∈
        colOf (weightedMatrix data weights C) j) ∧
    (impacts.getD j "" = "-" →
      (∀ x ∈ colOf (weightedMatrix data weights C) j,
        (ideal_best data weights impacts C).getD j 0 ≤ x ∧
          x ≤ (ideal_worst data weights impacts C).getD j 0) ∧
      (ideal_best data weights impacts C).getD j 0 ∈
        colOf (weightedMatrix data weights C) j ∧
      (ideal_worst data weights impacts C).getD j 0 ∈
        colOf (weightedMatrix data weights C) j) := by
  have hne : colOf (weightedMatrix data weights C) j ≠ [] := by
    simp only [colOf, weightedMatrix, List.map_map, ne_eq, List.map_eq_nil_iff]
    intro h
    rw [h] at hi
    exact absurd hi (by simp)
  have hbest : (ideal_best data weights impacts C).getD j 0 =
      (if impacts.getD j "" = "+" then lmax (colOf (weightedMatrix data weights C) j)
        else lmin (colOf (weightedMatrix data weights C) j)) := by
    rw [ideal_best, getD_range_map _ _ _ _ hj]
  have hworst : (ideal_worst data weights impacts C).getD j 0 =
      (if impacts.getD j "" = "+" then lmin (colOf (weightedMatrix data weights C) j)
        else lmax (colOf (weightedMatrix data weights C) j)) := by
    rw [ideal_worst, getD_range_map _ _ _ _ hj]
  refine ⟨?_, fun hplus => ?_, fun hminus => ?_⟩
  · rw [weightedMatrix, getD_map _ _ _ _ [] hi, weightedRow, getD_range_map _ _ _ _ hj]
  · rw [hbest, hworst, if_pos hplus, if_pos hplus]
    exact ⟨fun x hx => ⟨lmin_le hx, le_lmax hx⟩, lmax_mem hne, lmin_mem hne⟩
  · have hnp : ¬ impacts.getD j "" = "+" := by
      rw [hminus]
      decide
    rw [hbest, hworst, if_neg hnp, if_neg hnp]
    exact ⟨fun x hx => ⟨lmin_le hx, le_lmax hx⟩, lmin_mem hne, lmax_mem hne⟩

theorem colNorm_unit (j : ℕ) (hj : j < 2) : colNorm [[(1 : ℝ), 1]] j = 1 := by
  interval_cases j <;> simp [colNorm, colOf]

theorem weightedMatrix_unit : weightedMatrix [[(1 : ℝ), 1]] [1, 1] 2 = [[1, 1]] := by
  have h := colNorm_unit
  simp [weightedMatrix, weightedRow, show List.range 2 = [0, 1] from by decide,
    h 0 (by norm_num), h 1 (by norm_num)]

theorem topsis_eval_unit :
    topsis_calculation [[(1 : ℝ), 1]] [1, 1] ["+", "+"] = Except.ok ([0], [1]) := by
  have hC : numCriteria [[(1 : ℝ), 1]] = 2 := rfl
  have hcond : ¬ ∃ j ∈ List.range (numCriteria [[(1 : ℝ), 1]]),
      colNorm [[(1 : ℝ), 1]] j = 0 := by
    rw [hC, show List.range 2 = [0, 1] from by decide]
    rintro ⟨j, hj, hzero⟩
    simp only [List.mem_cons, List.not_mem_nil, or_false] at hj
    rcases hj with rfl | rfl
    · rw [colNorm_unit 0 (by norm_num)] at hzero
      exact one_ne_zero hzero
    · rw [colNorm_unit 1 (by norm_num)] at hzero
      exact one_ne_zero hzero
  have hscores : scoresOf [[(1 : ℝ), 1]] [1, 1] ["+", "+"] = [0] := by
    rw [scoresOf, hC, weightedMatrix_unit]
    have hib : ideal_best [[(1 : ℝ), 1]] [1, 1] ["+", "+"] 2 = [1, 1] := by
      rw [ideal_best, show List.range 2 = [0, 1] from by decide, weightedMatrix_unit]
      simp [colOf, lmax]
    have hiw : ideal_worst [[(1 : ℝ), 1]] [1, 1] ["+", "+"] 2 = [1, 1] := by
      rw [ideal_worst, show List.range 2 = [0, 1] from by decide, weightedMatrix_unit]
      simp [colOf, lmin]
    rw [hib, hiw]
    simp [rowDist, show List.range 2 = [0, 1] from by decide]
  rw [topsis_calculation, if_neg hcond, hscores]
  have hranks : ranksOf [(0 : ℝ)] = [1] := by
    rw [ranksOf]
    simp [argsort, argLe, show List.range 1 = [0] from by decide, List.mergeSort_singleton]
  rw [hranks]


/-- Claim C3 witness: the single-column all-zero matrix aborts with the
degenerate-column error. -/
theorem topsis_degenerate_column_witness :
    topsis_calculation [[(0 : ℝ)]] [1] ["+"] =
      Except.error "Column with all zeros detected" :=
  (topsis_degenerate_column [[(0 : ℝ)]] [1] ["+"]).1.mpr
    ⟨0, by norm_num [numCriteria], by simp [colNorm, colOf]⟩

/-- Claim C2 witness: on the one-row matrix `[[1, 1]]` the score formula and
range hold (the denominator is zero there, so the fallback yields `0`). -/
theorem score_formula_and_range_witness :
    ([(0 : ℝ)]).getD 0 0 =
      (if s_best [[(1 : ℝ), 1]] [1, 1] ["+", "+"] 0 +
          s_worst [[(1 : ℝ), 1]] [1, 1] ["+", "+"] 0 ≠ 0
        then s_worst [[(1 : ℝ), 1]] [1, 1] ["+", "+"] 0 /
          (s_best [[(1 : ℝ), 1]] [1, 1] ["+", "+"] 0 +
            s_worst [[(1 : ℝ), 1]] [1, 1] ["+", "+"] 0)
        else 0) ∧
    (s_best [[(1 : ℝ), 1]] [1, 1] ["+", "+"] 0 +
        s_worst [[(1 : ℝ), 1]] [1, 1] ["+", "+"] 0 ≠ 0 →
      0 ≤ ([(0 : ℝ)]).getD 0 0 ∧ ([(0 : ℝ)]).getD 0 0 ≤ 1) :=
  score_formula_and_range [[(1 : ℝ), 1]] [1, 1] ["+", "+"] [0] [1]
    topsis_eval_unit 0 (by norm_num)

/-- Claim C4 witness: concrete weighted entry and ideal points on
`[[1, 1]]` with benefit impacts. -/
theorem weighted_and_ideal_spec_witness :
    (((weightedMatrix [[(1 : ℝ), 1]] [1, 1] 2).getD 0 []).getD 0 0 =
      (([[(1 : ℝ), 1]].getD 0 []).getD 0 0) / colNorm [[(1 : ℝ), 1]] 0 *
        (([1, 1] : List ℝ).getD 0 0)) ∧
    ((ideal_worst [[(1 : ℝ), 1]] [1, 1] ["+", "+"] 2).getD 0 0 ≤ 1 ∧
      (1 : ℝ) ≤ (ideal_best [[(1 : ℝ), 1]] [1, 1] ["+", "+"] 2).getD 0 0) ∧
    (ideal_best [[(1 : ℝ), 1]] [1, 1] ["+", "+"] 2).getD 0 0 ∈
      colOf (weightedMatrix [[(1 : ℝ), 1]] [1, 1] 2) 0 := by
  have h := weighted_and_ideal_spec [[(1 : ℝ), 1]] [1, 1] ["+", "+"] 2 0 0
    (by norm_num) (by norm_num)
  have h2 := h.2.1 (by decide)
  refine ⟨h.1, h2.1 1 ?_, h2.2.1⟩
  rw [weightedMatrix_unit]
  simp [colOf]


theorem except_bind_ok {ε α β : Type} (a : α) (f : α → Except ε β) :
    (Except.ok a : Except ε α) >>= f = f a := rfl

theorem except_bind_error {ε α β : Type} (m : ε) (f : α → Except ε β) :
    (Except.error m : Except ε α) >>= f = Except.error m := rfl

theorem except_pure {ε α : Type} (a : α) : (pure a : Except ε α) = Except.ok a := rfl

theorem read_ok_eq (df : DataFrame) (r : DataFrame)
    (h : read_and_validate df = Except.ok r) : r = df := by
  simp only [read_and_validate] at h
  split_ifs at h
  exact (Except.ok.injEq _ _ ▸ h).symm

/-- Claim C7: `run_topsis` either fails with exactly one error message and
produces no output value (all failure exits occur before the output is
built), or succeeds with the input table plus exactly the two appended
columns `Topsis Score` and `Rank`, one output row per input row in the
original order. -/
theorem run_topsis_failure_atomic (df : DataFrame) (w i : String) :
    (∀ out, run_topsis df w i = Except.ok out →
      out.header = df.header ++ ["Topsis Score", "Rank"] ∧
      out.rows.map Prod.fst = df.rows ∧
      out.rows.length = df.rows.length) ∧
    ((∃ msg, run_topsis df w i = Except.error msg) ↔
      ¬ ∃ out, run_topsis df w i = Except.ok out) := by
  constructor
  · intro out h
    rcases hr : read_and_validate df with msg | df₁
    · simp only [run_topsis, hr, except_bind_error] at h
      exact Except.noConfusion h
    · obtain rfl := read_ok_eq df df₁ hr
      simp only [run_topsis, hr, except_bind_ok] at h
      rcases hp : parse_and_validate w i (df₁.header.length - 1) with msg | wi
      · simp only [hp, except_bind_error] at h
        exact Except.noConfusion h
      · obtain ⟨weights, impacts⟩ := wi
        simp only [hp, except_bind_ok] at h
        rcases ht : topsis_calculation
            ((criteriaMatrix df₁).map (fun row => row.map (Rat.cast : ℚ → ℝ)))
            (weights.map (Rat.cast : ℚ → ℝ)) impacts with msg | sr
        · simp only [ht, except_bind_error] at h
          exact Except.noConfusion h
        · obtain ⟨scores, ranks⟩ := sr
          simp only [ht, except_bind_ok, except_pure, Except.ok.injEq] at h
          obtain ⟨hsc, hrk⟩ := topsis_ok_scores _ _ _ _ _ ht
          have hslen : scores.length = df₁.rows.length := by
            rw [hsc, scoresOf_length, List.length_map, criteriaMatrix, List.length_map]
          have hrlen : ranks.length = df₁.rows.length := by
            rw [hrk, ranksOf_length, scoresOf_length, List.length_map, criteriaMatrix,
              List.length_map]
          have hlen : df₁.rows.length ≤ (scores.zip ranks).length := by
            rw [List.length_zip]
            omega
          subst h
          refine ⟨rfl, List.map_fst_zip _ _ hlen, ?_⟩
          simp only [List.length_zip]
          omega
  · rcases h : run_topsis df w i with msg | out
    · simp [h]
    · simp [h]



theorem run_topsis_eval_unit :
    run_topsis ⟨["n", "a", "b"], [["x", "1", "1"]]⟩ "1,1" "+,+" =
      Except.ok ⟨["n", "a", "b", "Topsis Score", "Rank"],
        [(["x", "1", "1"], 0, 1)]⟩ := by
  have h1 : read_and_validate ⟨["n", "a", "b"], [["x", "1", "1"]]⟩ =
      Except.ok ⟨["n", "a", "b"], [["x", "1", "1"]]⟩ := by decide
  have h2 : parse_and_validate "1,1" "+,+" 2 = Except.ok ([1, 1], ["+", "+"]) := by
    decide
  have h3 : criteriaMatrix ⟨["n", "a", "b"], [["x", "1", "1"]]⟩ = [[1, 1]] := by decide
  have h4 : (([[1, 1]] : List (List ℚ)).map (fun row => row.map (Rat.cast : ℚ → ℝ))) =
      [[(1 : ℝ), 1]] := by norm_num
  have h5 : (([1, 1] : List ℚ).map (Rat.cast : ℚ → ℝ)) = [(1 : ℝ), 1] := by norm_num
  simp only [run_topsis, h1, except_bind_ok]
  norm_num [h2, except_bind_ok, h3, h4, h5, topsis_eval_unit, except_pure]



/-- Claim C7 witness: one full successful run on a concrete one-row table. -/
theorem run_topsis_failure_atomic_witness :
    (⟨["n", "a", "b", "Topsis Score", "Rank"],
        [(["x", "1", "1"], 0, 1)]⟩ : OutputTable).header =
      ["n", "a", "b"] ++ ["Topsis Score", "Rank"] ∧
    (⟨["n", "a", "b", "Topsis Score", "Rank"],
        [(["x", "1", "1"], 0, 1)]⟩ : OutputTable).rows.map Prod.fst =
      [["x", "1", "1"]] ∧
    (⟨["n", "a", "b", "Topsis Score", "Rank"],
        [(["x", "1", "1"], 0, 1)]⟩ : OutputTable).rows.length =
      ([["x", "1", "1"]] : List (List String)).length :=
  (run_topsis_failure_atomic ⟨["n", "a", "b"], [["x", "1", "1"]]⟩ "1,1" "+,+").1
    ⟨["n", "a", "b", "Topsis Score", "Rank"], [(["x", "1", "1"], 0, 1)]⟩
    run_topsis_eval_unit



/-- On 17 identical rows every closeness score ties: both separations vanish,
so the zero-denominator fallback makes every score `0`. -/
theorem scoresOf_replicate_tied :
    scoresOf (List.replicate 17 [(1 : ℝ), 1]) [1, 1] ["+", "+"] =
      List.replicate 17 0 := by
  have hC : numCriteria (List.replicate 17 [(1 : ℝ), 1]) = 2 := rfl
  have hWM : weightedMatrix (List.replicate 17 [(1 : ℝ), 1]) [1, 1] 2 =
      List.replicate 17 (weightedRow (List.replicate 17 [(1 : ℝ), 1]) [1, 1] 2 [1, 1]) :=
    List.map_replicate
  have hcol : ∀ (c : List ℝ) (j : ℕ), colOf (List.replicate 17 c) j =
      List.replicate 17 (c.getD j 0) := fun c j => List.map_replicate
  have hlmax : ∀ (x : ℝ), lmax (List.replicate 17 x) = x := fun x =>
    List.eq_of_mem_replicate (lmax_mem (by simp))
  have hlmin : ∀ (x : ℝ), lmin (List.replicate 17 x) = x := fun x =>
    List.eq_of_mem_replicate (lmin_mem (by simp))
  have hib : ideal_best (List.replicate 17 [(1 : ℝ), 1]) [1, 1] ["+", "+"] 2 =
      (List.range 2).map (fun j =>
        (weightedRow (List.replicate 17 [(1 : ℝ), 1]) [1, 1] 2 [1, 1]).getD j 0) := by
    rw [ideal_best, hWM]
    apply List.map_congr_left
    intro j hj
    rw [hcol]
    split_ifs
    · exact hlmax _
    · exact hlmin _
  have hiw : ideal_worst (List.replicate 17 [(1 : ℝ), 1]) [1, 1] ["+", "+"] 2 =
      (List.range 2).map (fun j =>
        (weightedRow (List.replicate 17 [(1 : ℝ), 1]) [1, 1] 2 [1, 1]).getD j 0) := by
    rw [ideal_worst, hWM]
    apply List.map_congr_left
    intro j hj
    rw [hcol]
    split_ifs
    · exact hlmin _
    · exact hlmax _
  have hdist : rowDist (weightedRow (List.replicate 17 [(1 : ℝ), 1]) [1, 1] 2 [1, 1])
      ((List.range 2).map (fun j =>
        (weightedRow (List.replicate 17 [(1 : ℝ), 1]) [1, 1] 2 [1, 1]).getD j 0)) 2 = 0 := by
    rw [rowDist]
    have hmap : (List.range 2).map (fun j =>
        ((weightedRow (List.replicate 17 [(1 : ℝ), 1]) [1, 1] 2 [1, 1]).getD j 0 -
          ((List.range 2).map (fun j =>
            (weightedRow (List.replicate 17 [(1 : ℝ), 1]) [1, 1] 2 [1, 1]).getD j 0)).getD j 0) ^ 2) =
        (List.range 2).map (fun _ => (0 : ℝ)) := by
      apply List.map_congr_left
      intro j hj
      rw [getD_range_map _ _ _ _ (List.mem_range.mp hj), sub_self]
      norm_num
    rw [hmap]
    simp
  simp only [scoresOf, hC, hWM, List.map_replicate, hib, hiw, hdist]
  norm_num



/-- The permutation half of the rank property needs no stability: every
contract-conforming argsort induces ranks that are a permutation of `1..R`. -/
theorem isValidArgsort_ranks_perm (l : List ℝ) (a : List ℕ) (h : IsValidArgsort l a) :
    ((argsort a).map (fun r => r + 1)).Perm (List.range' 1 l.length) := by
  have hlen : a.length = l.length := by rw [h.1.length_eq, List.length_range]
  have h1 : (argsort a).Perm (List.range l.length) := by
    rw [← hlen]
    exact argsort_perm a
  have h2 := h1.map (fun r => r + 1)
  have h3 : (List.range l.length).map (fun r => r + 1) = List.range' 1 l.length := by
    rw [List.range'_eq_map_range]
    exact List.map_congr_left (fun x _ => Nat.add_comm x 1)
  exact h3 ▸ h2

/-- Claim C1 (code bug): the stable tie-break is not guaranteed by the code.
On the 17-row all-identical input the pipeline's scores all tie at `0`, yet
the contract of `np.argsort` with the source's default `kind='quicksort'`
admits the index order `[1, 0, 2, …, 16]` for `-scores`, and the ranks that
order induces (via the second argsort, which is deterministic because the
index list is duplicate-free) give row 1 a smaller rank than row 0 — against
the claim's "ties receive ranks ordered by the tied alternatives' original
row positions".  The spec mandates a stable sort; the code omits
`kind='stable'`. -/
theorem ranks_tie_break_not_guaranteed :
    scoresOf (List.replicate 17 [(1 : ℝ), 1]) [1, 1] ["+", "+"] =
      List.replicate 17 0 ∧
    IsValidArgsort ((List.replicate 17 (0 : ℝ)).map (fun s => -s))
      (1 :: 0 :: List.range' 2 15) ∧
    ((argsort (1 :: 0 :: List.range' 2 15)).map (fun r => r + 1)).getD 1 0 <
      ((argsort (1 :: 0 :: List.range' 2 15)).map (fun r => r + 1)).getD 0 0 := by
  refine ⟨scoresOf_replicate_tied, ⟨?_, ?_⟩, ?_⟩
  · -- permutation of range 17
    have hr : List.range ((List.replicate 17 (0 : ℝ)).map (fun s => -s)).length =
        0 :: 1 :: List.range' 2 15 := by decide
    rw [hr]
    exact List.Perm.swap 0 1 (List.range' 2 15)
  · -- pairwise: all keys are 0
    have hkey : ∀ x : ℕ,
        ((List.replicate 17 (0 : ℝ)).map (fun s => -s)).getD x default = 0 := by
      intro x
      rcases lt_or_ge x 17 with hx | hx
      · rw [List.getD_eq_getElem _ _ (by simpa using hx)]
        simp only [List.getElem_map, List.getElem_replicate, neg_zero]
      · rw [List.getD_eq_default _ _ (by simpa using hx)]
        exact real_default
    refine List.pairwise_iff_getElem.mpr ?_
    intro p q hp hq hpq
    rw [hkey, hkey]
  · -- ranks of rows 0 and 1 under the swapped argsort
    have hlen : (1 :: 0 :: List.range' 2 15 : List ℕ).length = 17 := by decide
    have hperm : (1 :: 0 :: List.range' 2 15 : List ℕ).Perm
        (List.range (1 :: 0 :: List.range' 2 15 : List ℕ).length) := by
      rw [hlen, show List.range 17 = 0 :: 1 :: List.range' 2 15 from by decide]
      exact List.Perm.swap 0 1 (List.range' 2 15)
    have hnd : (1 :: 0 :: List.range' 2 15 : List ℕ).Nodup := by decide
    have hal : (argsort (1 :: 0 :: List.range' 2 15)).length = 17 := by
      rw [argsort_length, hlen]
    have hmem : ∀ p : ℕ, p < 17 →
        (argsort (1 :: 0 :: List.range' 2 15)).getD p 0 < 17 := by
      intro p hp
      have hm : (argsort (1 :: 0 :: List.range' 2 15)).getD p 0 ∈
          argsort (1 :: 0 :: List.range' 2 15) := by
        rw [List.getD_eq_getElem _ _ (by rw [hal]; exact hp)]
        exact List.getElem_mem _
      have := argsort_mem hm
      rwa [hlen] at this
    have hinv0 := argsort_argsort_getD _ hperm 0 (by rw [hlen]; norm_num)
    have hinv1 := argsort_argsort_getD _ hperm 1 (by rw [hlen]; norm_num)
    have hinj : ∀ x y : ℕ, x < 17 → y < 17 →
        (1 :: 0 :: List.range' 2 15 : List ℕ).getD x 0 =
          (1 :: 0 :: List.range' 2 15 : List ℕ).getD y 0 → x = y := by
      intro x y hx hy hxy
      have hx' : x < (1 :: 0 :: List.range' 2 15 : List ℕ).length := by
        rw [hlen]; exact hx
      have hy' : y < (1 :: 0 :: List.range' 2 15 : List ℕ).length := by
        rw [hlen]; exact hy
      rw [List.getD_eq_getElem _ _ hx', List.getD_eq_getElem _ _ hy'] at hxy
      exact hnd.getElem_inj_iff.mp hxy
    have hp0 : (argsort (1 :: 0 :: List.range' 2 15)).getD 0 0 = 1 := by
      apply hinj _ 1 (hmem 0 (by norm_num)) (by norm_num)
      rw [hinv0]
      decide
    have hp1 : (argsort (1 :: 0 :: List.range' 2 15)).getD 1 0 = 0 := by
      apply hinj _ 0 (hmem 1 (by norm_num)) (by norm_num)
      rw [hinv1]
      decide
    rw [getD_map _ _ 1 _ 0 (by rw [hal]; norm_num),
      getD_map _ _ 0 _ 0 (by rw [hal]; norm_num), hp0, hp1]
    norm_num


end Topsis
